import Mathlib

/-! # rn-electrum-client: request correlation and connection lifecycle

A shallow embedding of `lib/client.js` (class `Client`) and `index.js`
(class `ElectrumClient`).

* JSON values received from the server are the type `Json`; numbers are
  exact integers (the engine's doubles are exact for the identifiers a
  client can allocate).
* `callback_message_queue` is an object literal: besides the slots written
  under the counter it answers reads of the members inherited from
  `Object.prototype`, which `response` would take for a callback.
* Everything the client does to the outside world (socket writes, callback
  invocations, console lines, timers) is appended to a trace of `Effect`s
  kept in the state, in program order.
* `util.makeRequest` is not among the sources; the functions that use it
  take it as the parameter `mk`.  The callbacks built by
  `util.createPromiseResult` and `util.createPromiseResultBatch` are kept as
  data (`Entry`), and invoking one is the effect `Effect.call`.
-/

namespace Electrum

/-! ## JSON values -/

/-- A parsed JSON value.  An object is its list of properties. -/
inductive Json where
  | null
  | bool (b : Bool)
  | num (n : Int)
  | str (s : String)
  | arr (xs : List Json)
  | obj (kvs : List (String × Json))

/-- JavaScript truthiness of a value. -/
def truthy : Json → Bool
  | .null => false
  | .bool b => b
  | .num n => n != 0
  | .str s => s != ""
  | .arr _ => true
  | .obj _ => true

/-- Truthiness of the result of a property read, `none` being `undefined`. -/
def truthyOpt : Option Json → Bool
  | none => false
  | some v => truthy v

/-- Property read `v.name` on a value that is not `null`: `none` is
`undefined`.  Only objects carry named properties. -/
def getProp (v : Json) (name : String) : Option Json :=
  match v with
  | .obj kvs => kvs.lookup name
  | _ => none

/-- Indexed read `v[0]` on a value that is not `null`. -/
def index0 : Json → Option Json
  | .arr xs => xs.head?
  | .obj kvs => kvs.lookup "0"
  | .str s =>
      match s.data with
      | [] => none
      | c :: _ => some (.str (String.mk [c]))
  | _ => none

/-- Value of a run of decimal digits, most significant first. -/
def parseDigits : List Char → Nat → Option Nat
  | [], acc => some acc
  | c :: cs, acc =>
      if c.isDigit then parseDigits cs (acc * 10 + (c.toNat - 48)) else none

/-- The natural number a string spells in canonical decimal form (the form
in which a number is turned into a property key), if any. -/
def decimalKey (s : String) : Option Nat :=
  match s.data with
  | [] => none
  | cs =>
      match parseDigits cs 0 with
      | some n => if Nat.toDigits 10 n = cs then some n else none
      | none => none

/-- The slot of `callback_message_queue` that `queue[v]` addresses.  Slots
are only ever written under the counter `this.id`, so a value addresses a
slot only when its string conversion is a canonical decimal natural: a
non-negative number, a string spelling one, or a one-element array of
such. -/
def keyOf : Json → Option Nat
  | .num n => if 0 ≤ n then some n.toNat else none
  | .str s => decimalKey s
  | .arr [x] => keyOf x
  | _ => none

/-- The slot addressed by a property read used as key; `undefined`
addresses the property `"undefined"`, which is no slot. -/
def keyOfOpt : Option Json → Option Nat
  | none => none
  | some v => keyOf v

/-- The properties every object inherits from `Object.prototype`; the
object literal `callback_message_queue` answers a read of any of them. -/
def inheritedNames : List String :=
  ["constructor", "__defineGetter__", "__defineSetter__", "hasOwnProperty",
   "__lookupGetter__", "__lookupSetter__", "isPrototypeOf", "propertyIsEnumerable",
   "toString", "valueOf", "__proto__", "toLocaleString"]

/-- The inherited property that `queue[v]` addresses, if any: a string
naming one, or a one-element array of such. -/
def inheritedOf : Json → Option String
  | .str s => if inheritedNames.contains s then some s else none
  | .arr [x] => inheritedOf x
  | _ => none

/-- The inherited property addressed by a property read used as key. -/
def inheritedOfOpt : Option Json → Option String
  | none => none
  | some v => inheritedOf v

/-! ## Pending entries and the trace -/

/-- A callback stored in `callback_message_queue`: the one built by
`util.createPromiseResult(resolve, reject)` for a single request, or the one
built by `util.createPromiseResultBatch(resolve, reject, arguments_far_calls)`
for a batch, which carries the id -> param mapping. -/
inductive Entry where
  | single
  | batch (args : List (Nat × Json))

/-- First argument of a callback invocation when it is not `null`: a value
taken from a message, or an `Error` object with its message. -/
inductive Err where
  | json (v : Json)
  | error (message : String)

/-- Timers armed by `ElectrumClient`. -/
inductive Timer where
  | reconnectDelay
  | idle
  | probe
  deriving DecidableEq

/-- What the client does to the outside world. -/
inductive Effect where
  | write (line : String)
  | call (slot : Nat) (cb : Entry) (err : Option Err) (result : Option Json)
  | log (line : String)
  | socketConnect
  | socketEnd
  | socketDestroy
  | removeAllListeners (event : String)
  | publish (method : Option Json) (params : Option Json)
  | setTimeout (handle : Nat) (kind : Timer)
  | clearTimeout (handle : Nat)
  | policyCallback (f : Nat)

/-! ## The object `callback_message_queue`

A JavaScript object with integer keys: one value per key, keys enumerated in
ascending order. -/

/-- Assignment `o[k] = v`. -/
def objSet {β : Type} (o : List (Nat × β)) (k : Nat) (v : β) : List (Nat × β) :=
  match o with
  | [] => [(k, v)]
  | (k', v') :: rest =>
      if k < k' then (k, v) :: (k', v') :: rest
      else if k = k' then (k, v) :: rest
      else (k', v') :: objSet rest k v

/-- Read `o[k]`. -/
def objGet {β : Type} (o : List (Nat × β)) (k : Nat) : Option β :=
  match o with
  | [] => none
  | (k', v') :: rest => if k = k' then some v' else objGet rest k

/-- Removal `delete o[k]`. -/
def objDelete {β : Type} (o : List (Nat × β)) (k : Nat) : List (Nat × β) :=
  o.filter (fun e => e.1 != k)

/-- Removal `delete o[key]` where the key is a property read. -/
def objDeleteOpt {β : Type} (o : List (Nat × β)) (k : Option Nat) : List (Nat × β) :=
  match k with
  | some k => objDelete o k
  | none => o

/-- Keys in enumeration order, `Object.keys(o)`. -/
def objKeys {β : Type} (o : List (Nat × β)) : List Nat :=
  o.map Prod.fst

/-- Representation invariant of an object: keys strictly ascending. -/
def ObjWF {β : Type} (o : List (Nat × β)) : Prop :=
  (objKeys o).Pairwise (· < ·)

instance {β : Type} (o : List (Nat × β)) : Decidable (ObjWF o) := by
  unfold ObjWF; infer_instance

/-! ## `Client` (lib/client.js) -/

/-- The mutable fields of a `Client` together with the trace; `listeners`
are the topics for which the emitter `subscribe` holds a listener. -/
structure Client where
  id : Nat
  status : Nat
  queue : List (Nat × Entry)
  listeners : List String
  effects : List Effect

/-- What `request` and `requestBatch` return: a promise already rejected
with an `Error`, or the promise whose continuations sit in the callback
stored under `slot`. -/
inductive Handle where
  | rejected (message : String)
  | pending (slot : Nat)

/-- State left by the constructor: `id = 0`, empty queue, and `status = 0`
set by `initSocket`. -/
def Client.new : Client :=
  { id := 0, status := 0, queue := [], listeners := [], effects := [] }

/-- Append one effect to the trace. -/
def Client.emit (c : Client) (e : Effect) : Client :=
  { c with effects := c.effects ++ [e] }

/-- `initSocket()` with the protocol saved by the constructor. -/
def Client.initSocket (c : Client) : Client :=
  { c with status := 0 }

/-- `connect()`: returns the state and whether the returned promise is
already resolved (`true`) or waits for the transport. -/
def Client.connect (c : Client) : Client × Bool :=
  if c.status = 1 then (c, true)
  else (({ c with status := 1 }).emit .socketConnect, false)

/-- `close()`. -/
def Client.close (c : Client) : Client :=
  if c.status = 0 then c
  else { ((c.emit .socketEnd).emit .socketDestroy) with status := 0 }

/-- `request(method, params)`. -/
def Client.request (mk : String → List Json → Nat → String) (c : Client)
    (method : String) (params : List Json) : Client × Handle :=
  if c.status = 0 then (c, .rejected "Connection to server lost, please retry")
  else
    let id := c.id + 1
    let content := mk method params id
    (({ c with id := id, queue := objSet c.queue id .single }).emit
        (.write (content ++ "\n")), .pending id)

/-- Loop state of `requestBatch`: the counter, `arguments_far_calls` and
`contents`. -/
structure BatchAcc where
  id : Nat
  args : List (Nat × Json)
  contents : List String

/-- One iteration of the loop of `requestBatch`. -/
def batchStep (mk : String → List Json → Nat → String) (method : String)
    (secondParam : Option Json) (acc : BatchAcc) (param : Json) : BatchAcc :=
  let id := acc.id + 1
  let built :=
    match secondParam with
    | some s => mk method [param, s] id
    | none => mk method [param] id
  { id := id, args := objSet acc.args id param, contents := acc.contents ++ [built] }

/-- `requestBatch(method, params, secondParam)`; `secondParam = none` is
`undefined`. -/
def Client.requestBatch (mk : String → List Json → Nat → String) (c : Client)
    (method : String) (params : List Json) (secondParam : Option Json) :
    Client × Handle :=
  if c.status = 0 then (c, .rejected "Connection to server lost, please retry")
  else
    let acc := params.foldl (batchStep mk method secondParam)
      { id := c.id, args := [], contents := [] }
    let content := "[" ++ ",".intercalate acc.contents ++ "]"
    (({ c with id := acc.id, queue := objSet c.queue acc.id (.batch acc.args) }).emit
        (.write (content ++ "\n")), .pending acc.id)

/-- The test `!msg.id && msg[0] && msg[0].id` of `response`. -/
def isBatchResponse (msg : Json) : Bool :=
  !truthyOpt (getProp msg "id") &&
    match index0 msg with
    | none => false
    | some m0 => truthy m0 && truthyOpt (getProp m0 "id")

/-- A truthy value read from `callback_message_queue`: a registered
callback with the slot it was read from, or an inherited member. -/
inductive Callback where
  | entry (slot : Nat) (cb : Entry)
  | inherited (name : String)

/-- Loop state of the batch branch of `response`: the queue and the local
`callback`. -/
structure ScanAcc where
  queue : List (Nat × Entry)
  callback : Option Callback

/-- One iteration of `for (let m of msg)`; `none` is the `TypeError` of
reading `m.id` on `null`. -/
def scanStep (acc : ScanAcc) (m : Json) : Option ScanAcc :=
  match m with
  | .null => none
  | m =>
      if truthyOpt (getProp m "id") then
        match keyOfOpt (getProp m "id") with
        | some k =>
            match objGet acc.queue k with
            | some cb =>
                some { queue := objDelete acc.queue k, callback := some (.entry k cb) }
            | none => some acc
        | none =>
            match inheritedOfOpt (getProp m "id") with
            | some name => some { acc with callback := some (.inherited name) }
            | none => some acc
      else some acc

/-- The loop `for (let m of msg)` over the elements; on a `TypeError` the
deletions made so far stay (`Except.error`). -/
def scan : List Json → ScanAcc → Except ScanAcc ScanAcc
  | [], acc => .ok acc
  | m :: ms, acc =>
      match scanStep acc m with
      | some acc' => scan ms acc'
      | none => .error acc

/-- The arguments `response` passes to the callback: `(msg.error)` when
`msg.error` is truthy, else `(null, msg.result || msg)`. -/
def callbackArgs (msg : Json) : Option Err × Option Json :=
  if truthyOpt (getProp msg "error") then
    ((getProp msg "error").map Err.json, none)
  else
    match getProp msg "result" with
    | some r => if truthy r then (none, some r) else (none, some msg)
    | none => (none, some msg)

/-- Whether calling an inherited member as `callback(first, ...)`, with no
receiver, throws: `Object` and `toString` accept it, `isPrototypeOf` returns
at once unless its argument is an object, `__proto__` is not a function, and
the others convert the missing receiver to an object, which throws. -/
def inheritedThrows (name : String) (first : Option Err) : Bool :=
  if name = "constructor" ∨ name = "toString" then false
  else if name = "isPrototypeOf" then
    match first with
    | some (.json (.obj _)) => true
    | some (.json (.arr _)) => true
    | _ => false
  else true

/-- The part of `response` after `callback` is chosen; `Except.error` is
the `TypeError` of calling an inherited member. -/
def deliver (c : Client) (msg : Json) (callback : Option Callback) : Except Client Client :=
  match callback with
  | some (.entry slot cb) =>
      .ok (({ c with queue := objDeleteOpt c.queue (keyOfOpt (getProp msg "id")) }).emit
        (.call slot cb (callbackArgs msg).1 (callbackArgs msg).2))
  | some (.inherited name) =>
      if inheritedThrows name (callbackArgs msg).1 then
        .error { c with queue := objDeleteOpt c.queue (keyOfOpt (getProp msg "id")) }
      else .ok { c with queue := objDeleteOpt c.queue (keyOfOpt (getProp msg "id")) }
  | none => .ok (c.emit (.log "Can't get callback"))

/-- `response(msg)` for a message that is not `null` (`onMessage` has read
`msg.id` or found an array before calling).  `Except.error` is a `TypeError`
thrown out of `response`, with the state at that point. -/
def Client.response (c : Client) (msg : Json) : Except Client Client :=
  if isBatchResponse msg then
    match msg with
    | .arr ms =>
        match scan ms { queue := c.queue, callback := none } with
        | .ok acc => deliver { c with queue := acc.queue } msg acc.callback
        | .error acc => .error { c with queue := acc.queue }
    | _ => .error c
  else
    match keyOfOpt (getProp msg "id") with
    | some k => deliver c msg ((objGet c.queue k).map (Callback.entry k))
    | none => deliver c msg ((inheritedOfOpt (getProp msg "id")).map Callback.inherited)

/-- One iteration of the `forEach` of `onClose`.  A key whose slot is empty
would be a call of `undefined`; with unique keys it does not arise, each key
coming from the snapshot and only its own slot being deleted. -/
def closeStep (c : Client) (key : Nat) : Client :=
  match objGet c.queue key with
  | some cb =>
      { (c.emit (.call key cb (some (.error "close connect")) none)) with
        queue := objDelete c.queue key }
  | none => c

/-- `onClose(e)`. -/
def Client.onClose (c : Client) : Client :=
  (objKeys c.queue).foldl closeStep { c with status := 0 }

/-- `onError(e)`, with the message of the error. -/
def Client.onError (c : Client) (message : String) : Client :=
  c.emit (.log ("OnError:Error: " ++ message))

/-- Whether a topic is the string `error`, which an emitter refuses to emit
without a listener. -/
def isErrorTopic : Option Json → Bool
  | some (.str s) => s == "error"
  | _ => false

/-- `subscribe.emit(msg.method, msg.params)`: the emitter throws on the
topic `error` when it has no listener for it; otherwise the listeners of the
topic, which are caller code, are handed the parameters. -/
def publish (c : Client) (msg : Json) : Except Client Client :=
  if isErrorTopic (getProp msg "method") && !c.listeners.contains "error" then .error c
  else .ok (c.emit (.publish (getProp msg "method") (getProp msg "params")))

/-- The body of the `try` of `onMessage(body, n)` on the outcome of
`JSON.parse(body)` (`none` is a `SyntaxError`).  `Except.error` is an
exception reaching the `catch`, with the state at that point. -/
def tryMessage (c : Client) (parsed : Option Json) : Except Client Client :=
  match parsed with
  | none => .error c
  | some (.arr ms) => c.response (.arr ms)
  | some .null => .error c
  | some msg =>
      match getProp msg "id" with
      | some _ => c.response msg
      | none => publish c msg

/-- `onMessage(body, n)` of a plain `Client`, whose `catch` ends and destroys
the socket and calls `onClose`. -/
def Client.onMessage (c : Client) (parsed : Option Json) : Client :=
  match tryMessage c parsed with
  | .ok c1 => c1
  | .error c1 => ((c1.emit .socketEnd).emit .socketDestroy).onClose

/-- Responses handed to `response` one after the other, stopping at the
first exception. -/
def feed : Client → List Json → Except Client Client
  | c, [] => .ok c
  | c, msg :: rest =>
      match c.response msg with
      | .ok c1 => feed c1 rest
      | .error c1 => .error c1

/-- The slot a message addresses through its `id`. -/
def msgKey (msg : Json) : Option Nat :=
  keyOfOpt (getProp msg "id")

/-! ## `ElectrumClient` (index.js)

The promise continuations that `index.js` attaches (`.then`, `.catch`) run
when a handle settles; they are the functions `settled` and `runSettled`.
Time is the argument `now` of the operations that read the clock. -/

/-- A persistence policy object `{ maxRetry, callback }`; the callback is a
caller function, named by a tag, or `null`. -/
structure Policy where
  maxRetry : Int
  callback : Option Nat
  deriving DecidableEq

/-- The handshake payload `electrumConfig`. -/
structure Config where
  client : String
  version : String
  deriving DecidableEq

/-- The mutable fields of an `ElectrumClient`, the timers it has armed with
the runtime, and the closures it has left with pending promises.

* `persistencePolicy`, `electrumConfig`, `timeout`: `none` is `undefined`
  or `null`.
* `timers`: the armed timers by handle; `nextTimer` is the handle the
  runtime hands out next.
* `probes`: for each pending `server.ping` sent by the keepalive, the
  `pingTimer` its continuation will clear.
* `handshake`: the promise of the latest `connect()` is pending, with the
  continuation of `initElectrum` that sends `server.version`.
* `patched`: `close()` has replaced `reconnect`, `onClose` and `keepAlive`
  on the instance by the empty function. -/
structure ElectrumClient where
  base : Client
  persistencePolicy : Option Policy
  electrumConfig : Option Config
  timeLastCall : Nat
  timeout : Option Nat
  timers : List (Nat × Timer)
  nextTimer : Nat
  probes : List (Nat × Nat)
  handshake : Bool
  patched : Bool

/-- State left by the constructor. -/
def ElectrumClient.new : ElectrumClient :=
  { base := Client.new, persistencePolicy := none, electrumConfig := none,
    timeLastCall := 0, timeout := none, timers := [], nextTimer := 0,
    probes := [], handshake := false, patched := false }

/-- Append one effect to the trace. -/
def ElectrumClient.emit (e : ElectrumClient) (x : Effect) : ElectrumClient :=
  { e with base := e.base.emit x }

/-- `this.subscribe.removeAllListeners(event)`. -/
def ElectrumClient.removeAllListeners (e : ElectrumClient) (event : String) :
    ElectrumClient :=
  ({ e with base := { e.base with listeners := e.base.listeners.filter (· != event) } }).emit
    (.removeAllListeners event)

/-- The runtime call `setTimeout(callback, delay)`: arms a timer under a
fresh handle and returns the handle. -/
def ElectrumClient.setTimeout (e : ElectrumClient) (kind : Timer) : ElectrumClient × Nat :=
  (({ e with timers := e.timers ++ [(e.nextTimer, kind)],
             nextTimer := e.nextTimer + 1 }).emit (.setTimeout e.nextTimer kind),
   e.nextTimer)

/-- The runtime call `clearTimeout(handle)`. -/
def ElectrumClient.clearTimeout (e : ElectrumClient) (h : Nat) : ElectrumClient :=
  ({ e with timers := objDelete e.timers h }).emit (.clearTimeout h)

/-- The method `keepAlive` of the class. -/
def ElectrumClient.keepAliveProto (e : ElectrumClient) : ElectrumClient :=
  let e1 :=
    match e.timeout with
    | some h => e.clearTimeout h
    | none => e
  let r := e1.setTimeout .idle
  { r.1 with timeout := some r.2 }

/-- The call `this.keepAlive()`. -/
def ElectrumClient.keepAlive (e : ElectrumClient) : ElectrumClient :=
  if e.patched then e else e.keepAliveProto

/-- `request(method, params)`, the override: records the time and calls the
parent.  Its `.then` continuation is in `settled`. -/
def ElectrumClient.request (mk : String → List Json → Nat → String)
    (e : ElectrumClient) (now : Nat) (method : String) (params : List Json) :
    ElectrumClient × Handle :=
  let r := ({ e with timeLastCall := now }).base.request mk method params
  ({ e with timeLastCall := now, base := r.1 }, r.2)

/-- `requestBatch(method, params, secondParam)`, the override. -/
def ElectrumClient.requestBatch (mk : String → List Json → Nat → String)
    (e : ElectrumClient) (now : Nat) (method : String) (params : List Json)
    (secondParam : Option Json) : ElectrumClient × Handle :=
  let r := ({ e with timeLastCall := now }).base.requestBatch mk method params secondParam
  ({ e with timeLastCall := now, base := r.1 }, r.2)

/-- `server_version(client_name, protocol_version)`. -/
def ElectrumClient.serverVersion (mk : String → List Json → Nat → String)
    (e : ElectrumClient) (now : Nat) (cfg : Config) : ElectrumClient × Handle :=
  e.request mk now "server.version" [.str cfg.client, .str cfg.version]

/-- The continuation `() => this.server_version(...)` of `initElectrum`;
without a configuration reading `this.electrumConfig.client` throws inside
the continuation and nothing is sent. -/
def ElectrumClient.runHandshake (mk : String → List Json → Nat → String)
    (e : ElectrumClient) (now : Nat) : ElectrumClient :=
  match e.electrumConfig with
  | some cfg => (e.serverVersion mk now cfg).1
  | none => e

/-- `initElectrum(electrumConfig, persistencePolicy)`; the policy argument is
`none` when omitted (the default `{ maxRetry: 1000, callback: null }` is
taken), `some none` when `null`. -/
def ElectrumClient.initElectrum (mk : String → List Json → Nat → String)
    (e : ElectrumClient) (now : Nat) (cfg : Option Config)
    (policy : Option (Option Policy)) : ElectrumClient :=
  let p : Option Policy :=
    match policy with
    | none => some { maxRetry := 1000, callback := none }
    | some p => p
  let e1 := { e with persistencePolicy := p, electrumConfig := cfg, timeLastCall := 0 }
  let r := e1.base.connect
  let e2 := { e1 with base := r.1 }
  if r.2 then e2.runHandshake mk now else { e2 with handshake := true }

/-- The method `reconnect` of the class. -/
def ElectrumClient.reconnectProto (mk : String → List Json → Nat → String)
    (e : ElectrumClient) (now : Nat) : ElectrumClient :=
  let e1 := e.emit (.log "electrum reconnect")
  let e2 := { e1 with base := e1.base.initSocket }
  e2.initElectrum mk now e2.electrumConfig none

/-- The call `this.reconnect()`. -/
def ElectrumClient.reconnect (mk : String → List Json → Nat → String)
    (e : ElectrumClient) (now : Nat) : ElectrumClient :=
  if e.patched then e else e.reconnectProto mk now

/-- The method `onClose` of the class, up to the arming of the timer. -/
def ElectrumClient.onCloseProto (e : ElectrumClient) : ElectrumClient :=
  let e1 := { e with base := e.base.onClose }
  let e2 := (e1.removeAllListeners "blockchain.headers.subscribe").removeAllListeners
    "blockchain.scripthash.subscribe"
  (e2.setTimeout .reconnectDelay).1

/-- The call `this.onClose(e)`. -/
def ElectrumClient.onClose (e : ElectrumClient) : ElectrumClient :=
  if e.patched then e else e.onCloseProto

/-- `close()`. -/
def ElectrumClient.close (e : ElectrumClient) : ElectrumClient :=
  let e1 := { e with base := e.base.close }
  let e2 :=
    match e1.timeout with
    | some h => e1.clearTimeout h
    | none => e1
  { e2 with patched := true }

/-- The callback of the timer armed by `onClose`. -/
def ElectrumClient.reconnectTimer (mk : String → List Json → Nat → String)
    (e : ElectrumClient) (now : Nat) : ElectrumClient :=
  match e.persistencePolicy with
  | some p =>
      if p.maxRetry > 0 then
        let e1 := e.reconnect mk now
        { e1 with persistencePolicy :=
            e1.persistencePolicy.map (fun q => { q with maxRetry := q.maxRetry - 1 }) }
      else
        match p.callback with
        | some f => e.emit (.policyCallback f)
        | none => e
  | none => e.reconnect mk now

/-- The callback of the timer armed by `keepAlive`.  A probe refused at once
(not connected) runs the `.catch` and `.then` continuations right away. -/
def ElectrumClient.idleTimer (mk : String → List Json → Nat → String)
    (e : ElectrumClient) (now : Nat) : ElectrumClient :=
  if e.timeLastCall ≠ 0 ∧ now > e.timeLastCall + 5000 then
    let t := e.setTimeout .probe
    let r := t.1.request mk now "server.ping" []
    match r.2 with
    | .pending slot => { r.1 with probes := objSet r.1.probes slot t.2 }
    | .rejected _ =>
        ((r.1.emit (.log "keepalive ping failed because of")).clearTimeout t.2).clearTimeout t.2
  else e

/-- The callback of the probe timer: `this.onError(new Error(...))`. -/
def ElectrumClient.probeTimer (e : ElectrumClient) : ElectrumClient :=
  { e with base := e.base.onError "keepalive ping timeout" }

/-- Modelled from the spec: `util.createPromiseResult` and
`util.createPromiseResultBatch` are not among the sources; a callback
invoked with a first argument fails its handle and one invoked with `null`
resolves it.  What runs then is what `index.js` attached to the handle: the
`.then` of the `request`/`requestBatch` override calls `keepAlive` on
success, and the `.catch`/`.then` of the keepalive probe clear its timer. -/
def ElectrumClient.settled (e : ElectrumClient) (slot : Nat) (failed : Bool) :
    ElectrumClient :=
  let e1 := if failed then e else e.keepAlive
  match objGet e1.probes slot with
  | some t =>
      let e2 :=
        if failed then (e1.emit (.log "keepalive ping failed because of")).clearTimeout t
        else e1
      { (e2.clearTimeout t) with probes := objDelete e2.probes slot }
  | none => e1

/-- The callback invocations in a stretch of the trace, as slot and
failure flag. -/
def callsOf : List Effect → List (Nat × Bool)
  | [] => []
  | .call slot _ err _ :: rest => (slot, err.isSome) :: callsOf rest
  | _ :: rest => callsOf rest

/-- Run the continuations of the handles settled since the trace had
length `before`. -/
def ElectrumClient.runSettled (e : ElectrumClient) (before : Nat) : ElectrumClient :=
  (callsOf (e.base.effects.drop before)).foldl (fun s c => s.settled c.1 c.2) e

/-- What reaches the client from the transport and the runtime. -/
inductive Event where
  | connected (now : Nat)
  | error (message : String)
  | closed
  | data (parsed : Option Json)
  | timer (handle : Nat) (now : Nat)

/-- Handler of the `connect` event of the socket: `onConnect()` is empty and
`resolve()` releases the handshake. -/
def ElectrumClient.onSocketConnect (mk : String → List Json → Nat → String)
    (e : ElectrumClient) (now : Nat) : ElectrumClient :=
  if e.handshake then ({ e with handshake := false }).runHandshake mk now else e

/-- Handler of the `error` event of the socket: `onError(e)` and
`reject(e)`, which drops the handshake. -/
def ElectrumClient.onSocketError (e : ElectrumClient) (message : String) : ElectrumClient :=
  { e with base := e.base.onError message, handshake := false }

/-- Handler of the `close` event of the socket. -/
def ElectrumClient.onSocketClose (e : ElectrumClient) : ElectrumClient :=
  e.onClose.runSettled e.base.effects.length

/-- `onMessage(body, n)` on an `ElectrumClient`: the `catch` calls
`this.onClose`. -/
def ElectrumClient.onMessage (e : ElectrumClient) (parsed : Option Json) : ElectrumClient :=
  match tryMessage e.base parsed with
  | .ok c1 => ({ e with base := c1 }).runSettled e.base.effects.length
  | .error c1 =>
      ({ e with base := (c1.emit .socketEnd).emit .socketDestroy }).onClose.runSettled
        e.base.effects.length

/-- Expiry of the timer `h`: nothing if it is not armed. -/
def ElectrumClient.fire (mk : String → List Json → Nat → String)
    (e : ElectrumClient) (h : Nat) (now : Nat) : ElectrumClient :=
  match objGet e.timers h with
  | none => e
  | some kind =>
      let e1 := { e with timers := objDelete e.timers h }
      match kind with
      | .reconnectDelay => e1.reconnectTimer mk now
      | .idle => e1.idleTimer mk now
      | .probe => e1.probeTimer

/-- One event. -/
def ElectrumClient.step (mk : String → List Json → Nat → String)
    (e : ElectrumClient) : Event → ElectrumClient
  | .connected now => e.onSocketConnect mk now
  | .error message => e.onSocketError message
  | .closed => e.onSocketClose
  | .data parsed => e.onMessage parsed
  | .timer h now => e.fire mk h now

/-- A sequence of events, in order. -/
def ElectrumClient.run (mk : String → List Json → Nat → String)
    (e : ElectrumClient) (evs : List Event) : ElectrumClient :=
  evs.foldl (ElectrumClient.step mk) e

/-- Whether an effect is part of a reconnect attempt or a keepalive
re-arm: opening a socket, the line logged by `reconnect`, a request written
to the socket, or an idle timer armed. -/
def restarts : Effect → Bool
  | .socketConnect => true
  | .log line => line == "electrum reconnect"
  | .write _ => true
  | .setTimeout _ .idle => true
  | _ => false

/-- Whether an effect is a callback invocation. -/
def isCall : Effect → Bool
  | .call _ _ _ _ => true
  | _ => false

/-- Whether an effect is a callback invocation on the given slot. -/
def isCallOn (slot : Nat) : Effect → Bool
  | .call s _ _ _ => s == slot
  | _ => false

/-- Whether an effect arms a timer. -/
def isSetTimeout : Effect → Bool
  | .setTimeout _ _ => true
  | _ => false

/-- Whether an effect is the invocation of the policy callback. -/
def isPolicyCallback : Effect → Bool
  | .policyCallback _ => true
  | _ => false

/-- Whether an effect is the line logged by `reconnect`. -/
def isReconnectLog : Effect → Bool
  | .log line => line == "electrum reconnect"
  | _ => false

/-- A stand-in for `util.makeRequest`, used to evaluate examples. -/
def sampleMakeRequest (method : String) (_params : List Json) (id : Nat) : String :=
  method ++ ":" ++ toString id

/-! ## Auxiliary predicates and sample states -/

/-- The parameter list of the request built for one batch element. -/
def batchParams (secondParam : Option Json) (param : Json) : List Json :=
  match secondParam with
  | some s => [param, s]
  | none => [param]

/-- A connected client with counter 4 and one request pending. -/
def sampleConnected : Client :=
  { id := 4, status := 1, queue := [(4, .single)], listeners := [], effects := [] }

/-- A connected client with the request 1 pending. -/
def samplePingPending : Client :=
  { id := 1, status := 1, queue := [(1, .single)], listeners := [], effects := [] }

/-- A connected client with a batch pending under 3 and a request under 4. -/
def sampleBatchPending : Client :=
  { id := 4, status := 1,
    queue := [(3, .batch [(2, .str "a"), (3, .str "b")]), (4, .single)],
    listeners := [], effects := [] }

/-- A batch response answering the identifiers 2 and 3. -/
def sampleBatchReply : List Json :=
  [.obj [("id", .num 2), ("result", .num 10)], .obj [("id", .num 3), ("result", .num 11)]]

/-- The callback invocation that answers a single request on slot `kr.1`
with the message `kr.2`. -/
def singleCall (kr : Nat × Json) : Effect :=
  .call kr.1 .single (callbackArgs kr.2).1 (callbackArgs kr.2).2

/-- A connected client with three single requests pending. -/
def sampleThreePending : Client :=
  { id := 3, status := 1, queue := [(1, .single), (2, .single), (3, .single)],
    listeners := [], effects := [] }

/-- Responses to the requests 3, 1 and 2, in that order; the one to 1 is an
error. -/
def sampleReplies : List Json :=
  [.obj [("id", .num 3), ("result", .str "c")],
   .obj [("id", .num 1), ("error", .str "bad")],
   .obj [("id", .num 2), ("result", .str "b")]]

/-- The trace `new` extends `old` by effects none of which restarts. -/
def Quiet (old new : List Effect) : Prop :=
  ∃ extra, new = old ++ extra ∧ ∀ x ∈ extra, restarts x = false

/-- The state `e1` is closed (hooks replaced, status 0) and its trace
extends that of `e` quietly. -/
def Calm (e e1 : ElectrumClient) : Prop :=
  e1.patched = true ∧ e1.base.status = 0 ∧ Quiet e.base.effects e1.base.effects

/-- On a `Client`: same status, trace extended quietly. -/
def ClientQuiet (c c1 : Client) : Prop :=
  c1.status = c.status ∧ Quiet c.effects c1.effects

/-- A property of the state an `Except` carries, on either side. -/
def onEither (P : Client → Prop) : Except Client Client → Prop
  | .ok c => P c
  | .error c => P c

/-- A handshake payload. -/
def sampleConfig : Config :=
  { client := "bluewallet", version := "1.4" }

/-- A fresh client after `initElectrum(config, { maxRetry: 2, callback: f })`,
the callback `f` carrying the tag 7. -/
def sampleStarted : ElectrumClient :=
  ElectrumClient.new.initElectrum sampleMakeRequest 0 (some sampleConfig)
    (some (some { maxRetry := 2, callback := some 7 }))

/-- Three connection attempts failing at once: each is answered by a
transport error and close event, and the reconnect delay then elapses. -/
def sampleFailures : List Event :=
  [.error "ECONNREFUSED", .closed, .timer 0 1000,
   .error "ECONNREFUSED", .closed, .timer 1 2000,
   .error "ECONNREFUSED", .closed, .timer 2 3000]

/-- The client connected, with the handshake request 1 written and not yet
answered. -/
def sampleAwaiting : ElectrumClient :=
  sampleStarted.run sampleMakeRequest [.connected 10]

/-- The client connected and idle: the handshake was answered, the idle
timer expired and the keepalive probe (request 2) was sent, its timer 1
armed. -/
def sampleProbing : ElectrumClient :=
  sampleAwaiting.run sampleMakeRequest
    [.data (some (.obj [("id", .num 1), ("result", .arr [.str "ElectrumX", .str "1.4"])])),
     .timer 0 6000]

/-! ## Facts about objects -/

theorem objGet_objSet_self {β : Type} (o : List (Nat × β)) (k : Nat) (v : β) :
    objGet (objSet o k v) k = some v := by
  induction o with
  | nil => simp [objSet, objGet]
  | cons e rest ih =>
      obtain ⟨k', v'⟩ := e
      unfold objSet
      by_cases h1 : k < k'
      · simp [h1, objGet]
      · by_cases h2 : k = k'
        · simp [h2, objGet]
        · simp [h1, h2, objGet, ih]

theorem objGet_objSet_ne {β : Type} (o : List (Nat × β)) (k j : Nat) (v : β) (h : j ≠ k) :
    objGet (objSet o k v) j = objGet o j := by
  induction o with
  | nil => simp [objSet, objGet, h]
  | cons e rest ih =>
      obtain ⟨k', v'⟩ := e
      unfold objSet
      by_cases h1 : k < k'
      · simp [h1, objGet, h]
      · by_cases h2 : k = k'
        · subst h2
          simp [objGet, h]
        · simp [h1, h2, objGet, ih]

theorem objGet_objDelete_self {β : Type} (o : List (Nat × β)) (k : Nat) :
    objGet (objDelete o k) k = none := by
  induction o with
  | nil => simp [objDelete, objGet]
  | cons e rest ih =>
      obtain ⟨k', v'⟩ := e
      by_cases h : k' = k
      · simpa [objDelete, h] using ih
      · have h' : k ≠ k' := fun x => h x.symm
        simpa [objDelete, h, objGet, h'] using ih

theorem objGet_objDelete_ne {β : Type} (o : List (Nat × β)) (k j : Nat) (h : j ≠ k) :
    objGet (objDelete o k) j = objGet o j := by
  induction o with
  | nil => simp [objDelete, objGet]
  | cons e rest ih =>
      obtain ⟨k', v'⟩ := e
      by_cases h1 : k' = k
      · subst h1
        simpa [objDelete, objGet, h] using ih
      · by_cases h2 : j = k'
        · simp [objDelete, h1, objGet, h2]
        · simpa [objDelete, h1, objGet, h2] using ih

theorem objDelete_of_not_mem {β : Type} (o : List (Nat × β)) (k : Nat)
    (h : k ∉ objKeys o) : objDelete o k = o := by
  induction o with
  | nil => simp [objDelete]
  | cons e rest ih =>
      obtain ⟨k', v'⟩ := e
      simp only [objKeys, List.map_cons, List.mem_cons, not_or] at h
      have h1 : k' ≠ k := fun x => h.1 x.symm
      have ih' := ih (by simpa [objKeys] using h.2)
      simp only [objDelete] at ih' ⊢
      simp [List.filter_cons, h1, ih']

theorem objSet_append {β : Type} (o : List (Nat × β)) (k : Nat) (v : β)
    (h : ∀ j ∈ objKeys o, j < k) : objSet o k v = o ++ [(k, v)] := by
  induction o with
  | nil => simp [objSet]
  | cons e rest ih =>
      obtain ⟨k', v'⟩ := e
      have hk : k' < k := h k' (by simp [objKeys])
      have h1 : ¬ k < k' := by omega
      have h2 : ¬ k = k' := by omega
      have ih' := ih (fun j hj => h j (by simp [objKeys] at hj ⊢; exact Or.inr hj))
      simp [objSet, h1, h2, ih']

/-! ## `requestBatch` -/

theorem batchStep_eq (mk : String → List Json → Nat → String) (method : String)
    (secondParam : Option Json) (acc : BatchAcc) (param : Json) :
    batchStep mk method secondParam acc param =
      { id := acc.id + 1, args := objSet acc.args (acc.id + 1) param,
        contents := acc.contents ++ [mk method (batchParams secondParam param) (acc.id + 1)] } := by
  cases secondParam <;> rfl

theorem batch_fold (mk : String → List Json → Nat → String) (method : String)
    (secondParam : Option Json) (params : List Json) :
    ∀ acc : BatchAcc, (∀ j ∈ objKeys acc.args, j ≤ acc.id) →
      params.foldl (batchStep mk method secondParam) acc =
        { id := acc.id + params.length,
          args := acc.args ++ (List.range' (acc.id + 1) params.length).zip params,
          contents := acc.contents ++
            ((List.range' (acc.id + 1) params.length).zip params).map
              (fun ip => mk method (batchParams secondParam ip.2) ip.1) } := by
  induction params with
  | nil => intro acc _; simp
  | cons p ps ih =>
      intro acc hacc
      rw [List.foldl_cons, batchStep_eq]
      have hset : objSet acc.args (acc.id + 1) p = acc.args ++ [(acc.id + 1, p)] :=
        objSet_append _ _ _ (fun j hj => Nat.lt_succ_of_le (hacc j hj))
      rw [hset]
      rw [ih]
      · simp [List.range'_succ, Nat.add_assoc, Nat.add_comm 1]
      · intro j hj
        simp only [objKeys, List.map_append, List.mem_append, List.map_cons, List.map_nil,
          List.mem_singleton] at hj
        rcases hj with hj | hj
        · exact Nat.le_succ_of_le (hacc j (by simpa [objKeys] using hj))
        · simp [hj]

/-- C1: in status Connected with counter k, `requestBatch` on a non-empty
parameter list p1..pn allocates k+1..k+n in list order, request i being
built from [pi] or [pi, secondParam]; the counter ends at k+n; one entry is
registered, under k+n, carrying the mapping k+i -> pi, every other slot
being left as it was; and one line is written: the built requests joined by
a comma between brackets, followed by a newline. -/
theorem requestBatch_allocates_consecutive (mk : String → List Json → Nat → String)
    (c : Client) (method : String) (params : List Json) (secondParam : Option Json)
    (hstatus : c.status = 1) (hne : params ≠ []) :
    (c.requestBatch mk method params secondParam).2 = .pending (c.id + params.length) ∧
    (c.requestBatch mk method params secondParam).1.id = c.id + params.length ∧
    (c.requestBatch mk method params secondParam).1.status = 1 ∧
    (c.requestBatch mk method params secondParam).1.queue =
      objSet c.queue (c.id + params.length)
        (.batch ((List.range' (c.id + 1) params.length).zip params)) ∧
    objGet (c.requestBatch mk method params secondParam).1.queue (c.id + params.length) =
      some (.batch ((List.range' (c.id + 1) params.length).zip params)) ∧
    (∀ j, j ≠ c.id + params.length →
      objGet (c.requestBatch mk method params secondParam).1.queue j = objGet c.queue j) ∧
    (c.requestBatch mk method params secondParam).1.effects =
      c.effects ++ [.write ("[" ++ ",".intercalate
        (((List.range' (c.id + 1) params.length).zip params).map
          (fun ip => mk method (batchParams secondParam ip.2) ip.1)) ++ "]" ++ "\n")] := by
  have _ := hne
  have h0 : ¬ c.status = 0 := by omega
  have hfold := batch_fold mk method secondParam params
    { id := c.id, args := [], contents := [] } (by simp [objKeys])
  simp only [List.nil_append] at hfold
  have hq : (c.requestBatch mk method params secondParam).1.queue =
      objSet c.queue (c.id + params.length)
        (.batch ((List.range' (c.id + 1) params.length).zip params)) := by
    simp [Client.requestBatch, h0, hfold, Client.emit]
  refine ⟨?_, ?_, ?_, hq, ?_, ?_, ?_⟩
  · simp [Client.requestBatch, h0, hfold]
  · simp [Client.requestBatch, h0, hfold, Client.emit]
  · simp [Client.requestBatch, h0, hfold, Client.emit, hstatus]
  · rw [hq]; exact objGet_objSet_self _ _ _
  · intro j hj; rw [hq]; exact objGet_objSet_ne _ _ _ _ hj
  · simp [Client.requestBatch, h0, hfold, Client.emit]

/-- C1, on a batch of two parameters with a second parameter, from counter 4. -/
theorem requestBatch_allocates_consecutive_witness :
    sampleConnected.status = 1 ∧
    (sampleConnected.requestBatch sampleMakeRequest "blockchain.transaction.get"
        [.str "aa", .str "bb"] (some (.bool true))).2 = .pending 6 ∧
    (sampleConnected.requestBatch sampleMakeRequest "blockchain.transaction.get"
        [.str "aa", .str "bb"] (some (.bool true))).1.queue =
      [(4, .single), (6, .batch [(5, .str "aa"), (6, .str "bb")])] ∧
    (sampleConnected.requestBatch sampleMakeRequest "blockchain.transaction.get"
        [.str "aa", .str "bb"] (some (.bool true))).1.effects =
      [.write "[blockchain.transaction.get:5,blockchain.transaction.get:6]\n"] :=
  have h := requestBatch_allocates_consecutive sampleMakeRequest sampleConnected
    "blockchain.transaction.get" [.str "aa", .str "bb"] (some (.bool true))
    (by decide) (by simp)
  ⟨by decide, h.1, h.2.2.2.1.trans (by rfl), h.2.2.2.2.2.2.trans (by rfl)⟩

/-! ## `response` -/

theorem truthy_of_keyOf_pos (v : Json) (j : Nat) (h : keyOf v = some j) (hpos : 0 < j) :
    truthy v = true := by
  cases v with
  | null => simp [keyOf] at h
  | bool b => simp [keyOf] at h
  | num n =>
      simp only [keyOf] at h
      split at h
      · simp only [Option.some.injEq] at h
        simp only [truthy, bne_iff_ne, ne_eq]
        intro hn
        subst hn
        simp at h
        omega
      · simp at h
  | str s =>
      simp only [keyOf, decimalKey] at h
      simp only [truthy, bne_iff_ne, ne_eq]
      intro hs
      subst hs
      simp at h
  | arr xs => rfl
  | obj kvs => rfl

theorem scanStep_of_ne_null (acc : ScanAcc) (m : Json) (h : m ≠ .null) :
    scanStep acc m =
      if truthyOpt (getProp m "id") then
        match keyOfOpt (getProp m "id") with
        | some k =>
            match objGet acc.queue k with
            | some cb =>
                some { queue := objDelete acc.queue k, callback := some (.entry k cb) }
            | none => some acc
        | none =>
            match inheritedOfOpt (getProp m "id") with
            | some name => some { acc with callback := some (.inherited name) }
            | none => some acc
      else some acc := by
  cases m <;> first | exact absurd rfl h | rfl

theorem scanStep_miss (acc : ScanAcc) (m : Json) (h : m ≠ .null)
    (hplain : inheritedOfOpt (getProp m "id") = none)
    (hmiss : ∀ k, msgKey m = some k → objGet acc.queue k = none) :
    scanStep acc m = some acc := by
  rw [scanStep_of_ne_null acc m h]
  split
  · cases hk : keyOfOpt (getProp m "id") with
    | none => simp [hplain]
    | some k =>
        have := hmiss k hk
        simp [this]
  · rfl

theorem scan_miss (ms : List Json) (acc : ScanAcc) (hobj : ∀ m ∈ ms, m ≠ .null)
    (hplain : ∀ m ∈ ms, inheritedOfOpt (getProp m "id") = none)
    (hmiss : ∀ m ∈ ms, ∀ k, msgKey m = some k → objGet acc.queue k = none) :
    scan ms acc = .ok acc := by
  induction ms with
  | nil => rfl
  | cons m rest ih =>
      have h1 := scanStep_miss acc m (hobj m (by simp)) (hplain m (by simp))
        (hmiss m (by simp))
      simp only [scan, h1]
      exact ih (fun x hx => hobj x (by simp [hx])) (fun x hx => hplain x (by simp [hx]))
        (fun x hx => hmiss x (by simp [hx]))

theorem scanStep_hit (q : List (Nat × Entry)) (cb0 : Option Callback) (m : Json)
    (j : Nat) (cb : Entry) (hpos : 0 < j) (hkey : msgKey m = some j)
    (hreg : objGet q j = some cb) :
    scanStep { queue := q, callback := cb0 } m =
      some { queue := objDelete q j, callback := some (.entry j cb) } := by
  have hne : m ≠ .null := by
    intro h
    subst h
    simp [msgKey, getProp, keyOfOpt] at hkey
  rw [scanStep_of_ne_null _ m hne]
  simp only [msgKey] at hkey
  cases hv : getProp m "id" with
  | none => simp [hv, keyOfOpt] at hkey
  | some v =>
      rw [hv] at hkey
      have ht : truthy v = true := truthy_of_keyOf_pos v j hkey hpos
      simp only [keyOfOpt] at hkey
      simp [truthyOpt, ht, keyOfOpt, hkey, hreg]

theorem scan_hit (ms : List Json) (q : List (Nat × Entry)) (j : Nat) (cb : Entry)
    (hpos : 0 < j) (hreg : objGet q j = some cb)
    (hobj : ∀ m ∈ ms, m ≠ .null)
    (hplain : ∀ m ∈ ms, inheritedOfOpt (getProp m "id") = none)
    (hmem : ∃ m ∈ ms, msgKey m = some j)
    (hother : ∀ m ∈ ms, ∀ k, msgKey m = some k → k ≠ j → objGet q k = none) :
    scan ms { queue := q, callback := none } =
      .ok { queue := objDelete q j, callback := some (.entry j cb) } := by
  induction ms with
  | nil => simp at hmem
  | cons m rest ih =>
      by_cases hk : msgKey m = some j
      · simp only [scan, scanStep_hit q none m j cb hpos hk hreg]
        apply scan_miss
        · exact fun x hx => hobj x (by simp [hx])
        · exact fun x hx => hplain x (by simp [hx])
        · intro x hx k hxk
          by_cases hkj : k = j
          · subst hkj
            exact objGet_objDelete_self q k
          · show objGet (objDelete q j) k = none
            rw [objGet_objDelete_ne q j k hkj]
            exact hother x (by simp [hx]) k hxk hkj
      · have h1 : scanStep { queue := q, callback := none } m =
            some { queue := q, callback := none } := by
          apply scanStep_miss _ m (hobj m (by simp)) (hplain m (by simp))
          intro k hmk
          have hkj : k ≠ j := by
            intro h
            subst h
            exact hk hmk
          exact hother m (by simp) k hmk hkj
        simp only [scan, h1]
        apply ih
        · exact fun x hx => hobj x (by simp [hx])
        · exact fun x hx => hplain x (by simp [hx])
        · obtain ⟨x, hx, hxk⟩ := hmem
          simp only [List.mem_cons] at hx
          rcases hx with hx | hx
          · subst hx
            exact absurd hxk hk
          · exact ⟨x, hx, hxk⟩
        · exact fun x hx => hother x (by simp [hx])

theorem isBatchResponse_arr (m0 : Json) (rest : List Json) (v : Json)
    (hid : getProp m0 "id" = some v) (ht : truthy v = true) :
    isBatchResponse (.arr (m0 :: rest)) = true := by
  have hm0 : truthy m0 = true := by
    cases m0 <;> simp [getProp] at hid
    rfl
  have h1 : getProp (.arr (m0 :: rest)) "id" = none := rfl
  simp [isBatchResponse, h1, truthyOpt, index0, hm0, hid, ht]

theorem inheritedOf_num (n : Int) : inheritedOf (.num n) = none := by
  simp [inheritedOf]

/-- C2: for a batch registered under a (positive) identifier j, and a
response array of objects whose first element carries a truthy id, which
contains an entry with id j and no entry matching another pending
registration (nor naming a member the queue object inherits, as no numeric
id does), `response` invokes the batch callback (the one carrying the
id -> param mapping) exactly once, as a success, with the full array,
removes the registration for j and leaves every other slot as it was. -/
theorem response_resolves_batch (c : Client) (j : Nat) (args : List (Nat × Json))
    (m0 : Json) (rest : List Json) (v : Json)
    (hpos : 0 < j)
    (hreg : objGet c.queue j = some (.batch args))
    (hfirst : getProp m0 "id" = some v ∧ truthy v = true)
    (hobj : ∀ m ∈ m0 :: rest, m ≠ .null)
    (hplain : ∀ m ∈ m0 :: rest, inheritedOfOpt (getProp m "id") = none)
    (hmem : ∃ m ∈ m0 :: rest, msgKey m = some j)
    (hother : ∀ m ∈ m0 :: rest, ∀ k, msgKey m = some k → k ≠ j →
      objGet c.queue k = none) :
    c.response (.arr (m0 :: rest)) =
      .ok { c with queue := objDelete c.queue j,
                   effects := c.effects ++
                     [.call j (.batch args) none (some (.arr (m0 :: rest)))] } ∧
    objGet (objDelete c.queue j) j = none ∧
    ∀ k, k ≠ j → objGet (objDelete c.queue j) k = objGet c.queue k := by
  refine ⟨?_, objGet_objDelete_self _ _, fun k hk => objGet_objDelete_ne _ _ _ hk⟩
  have hb := isBatchResponse_arr m0 rest v hfirst.1 hfirst.2
  have hs := scan_hit (m0 :: rest) c.queue j (.batch args) hpos hreg hobj hplain hmem hother
  simp only [Client.response, hb, if_true, hs]
  simp [deliver, getProp, keyOfOpt, objDeleteOpt, callbackArgs, truthyOpt, Client.emit]

/-- C2, on a batch pending under 3 answered by the array for 2 and 3. -/
theorem response_resolves_batch_witness :
    sampleBatchPending.response (.arr sampleBatchReply) =
      .ok { id := 4, status := 1, queue := [(4, .single)], listeners := [],
            effects := [.call 3 (.batch [(2, .str "a"), (3, .str "b")]) none
              (some (.arr sampleBatchReply))] } :=
  (response_resolves_batch sampleBatchPending 3 [(2, .str "a"), (3, .str "b")]
    (.obj [("id", .num 2), ("result", .num 10)])
    [.obj [("id", .num 3), ("result", .num 11)]] (.num 2)
    (by decide) (by rfl) ⟨by rfl, by rfl⟩
    (by intro m hm; simp at hm; rcases hm with h | h <;> subst h <;> simp)
    (by intro m hm; simp at hm; rcases hm with h | h <;> subst h <;> rfl)
    ⟨.obj [("id", .num 3), ("result", .num 11)], by simp, by rfl⟩
    (by
      intro m hm k hk hkj
      simp at hm
      rcases hm with h | h
      · subst h
        have : k = 2 := by
          have h2 : msgKey (.obj [("id", .num 2), ("result", .num 10)]) = some 2 := by rfl
          rw [h2] at hk
          exact (Option.some.inj hk).symm
        subst this
        rfl
      · subst h
        have : k = 3 := by
          have h2 : msgKey (.obj [("id", .num 3), ("result", .num 11)]) = some 3 := by rfl
          rw [h2] at hk
          exact (Option.some.inj hk).symm
        exact absurd this hkj)).1

/-! ## Single responses -/

theorem response_single (c : Client) (msg : Json) (k : Nat) (cb : Entry)
    (hshape : isBatchResponse msg = false) (hkey : msgKey msg = some k)
    (hreg : objGet c.queue k = some cb) :
    c.response msg =
      .ok { c with queue := objDelete c.queue k,
                   effects := c.effects ++
                     [.call k cb (callbackArgs msg).1 (callbackArgs msg).2] } := by
  simp only [msgKey] at hkey
  simp [Client.response, hshape, hkey, hreg, deliver, objDeleteOpt, Client.emit]

theorem objGet_foldl_delete_of_not_mem (ks : List Nat) :
    ∀ (q : List (Nat × Entry)) (k : Nat), k ∉ ks →
      objGet (ks.foldl objDelete q) k = objGet q k := by
  induction ks with
  | nil => intro q k _; rfl
  | cons a rest ih =>
      intro q k hk
      simp only [List.mem_cons, not_or] at hk
      rw [List.foldl_cons, ih _ _ hk.2, objGet_objDelete_ne _ _ _ hk.1]

theorem objGet_foldl_delete_of_mem (ks : List Nat) :
    ∀ (q : List (Nat × Entry)) (k : Nat), k ∈ ks →
      objGet (ks.foldl objDelete q) k = none := by
  induction ks with
  | nil => intro q k hk; simp at hk
  | cons a rest ih =>
      intro q k hk
      rw [List.foldl_cons]
      by_cases hin : k ∈ rest
      · exact ih _ _ hin
      · have hka : k = a := by
          simp only [List.mem_cons] at hk
          rcases hk with h | h
          · exact h
          · exact absurd h hin
        subst hka
        rw [objGet_foldl_delete_of_not_mem rest _ _ hin]
        exact objGet_objDelete_self _ _

theorem feed_ordered (rs : List Json) :
    ∀ (ks : List Nat) (c : Client),
      rs.map msgKey = ks.map some → ks.Nodup →
      (∀ i ∈ ks, objGet c.queue i = some .single) →
      (∀ r ∈ rs, isBatchResponse r = false) →
      feed c rs =
        .ok { c with queue := ks.foldl objDelete c.queue,
                     effects := c.effects ++ (ks.zip rs).map singleCall } := by
  induction rs with
  | nil =>
      intro ks c hkeys _ _ _
      cases ks with
      | nil => simp [feed]
      | cons a t => simp at hkeys
  | cons r rest ih =>
      intro ks c hkeys hnd hsingle hshape
      cases ks with
      | nil => simp at hkeys
      | cons k ks' =>
          simp only [List.map_cons, List.cons.injEq] at hkeys
          have hstep := response_single c r k .single (hshape r (by simp)) hkeys.1
            (hsingle k (by simp))
          have hnd' := List.nodup_cons.mp hnd
          simp only [feed, hstep]
          rw [ih ks' _ hkeys.2 hnd'.2]
          · simp [singleCall]
          · intro i hi
            have hik : i ≠ k := by
              intro h
              subst h
              exact hnd'.1 hi
            show objGet (objDelete c.queue k) i = some .single
            rw [objGet_objDelete_ne _ _ _ hik]
            exact hsingle i (by simp [hi])
          · exact fun x hx => hshape x (by simp [hx])

theorem filter_calls_of_not_mem (rs : List Json) :
    ∀ (ks : List Nat) (i : Nat), i ∉ ks →
      ((ks.zip rs).map singleCall).filter (isCallOn i) = [] := by
  induction rs with
  | nil => intro ks i _; simp
  | cons r rest ih =>
      intro ks i hi
      cases ks with
      | nil => simp
      | cons k ks' =>
          simp only [List.mem_cons, not_or] at hi
          have hki : (k == i) = false := by
            simp only [beq_eq_false_iff_ne, ne_eq]
            exact fun h => hi.1 h.symm
          simp [singleCall, isCallOn, hki, List.filter_cons]
          have := ih ks' i hi.2
          simpa [List.filter_eq_nil_iff, singleCall] using this

theorem filter_calls_of_mem (rs : List Json) :
    ∀ (ks : List Nat) (i : Nat), rs.map msgKey = ks.map some → ks.Nodup → i ∈ ks →
      ∃ r ∈ rs, msgKey r = some i ∧
        ((ks.zip rs).map singleCall).filter (isCallOn i) = [singleCall (i, r)] := by
  induction rs with
  | nil =>
      intro ks i hkeys _ hi
      cases ks with
      | nil => simp at hi
      | cons a t => simp at hkeys
  | cons r rest ih =>
      intro ks i hkeys hnd hi
      cases ks with
      | nil => simp at hi
      | cons k ks' =>
          simp only [List.map_cons, List.cons.injEq] at hkeys
          have hnd' := List.nodup_cons.mp hnd
          by_cases hik : i = k
          · subst hik
            refine ⟨r, by simp, hkeys.1, ?_⟩
            have htail := filter_calls_of_not_mem rest ks' i hnd'.1
            simp only [List.zip_cons_cons, List.map_cons, List.filter_cons]
            have hhead : isCallOn i (singleCall (i, r)) = true := by
              simp [singleCall, isCallOn]
            rw [hhead, if_pos rfl, htail]
          · have hi' : i ∈ ks' := by
              simp only [List.mem_cons] at hi
              rcases hi with h | h
              · exact absurd h hik
              · exact h
            obtain ⟨x, hx, hxk, hxf⟩ := ih ks' i hkeys.2 hnd'.2 hi'
            refine ⟨x, by simp [hx], hxk, ?_⟩
            simp only [List.zip_cons_cons, List.map_cons, List.filter_cons]
            have hhead : isCallOn i (singleCall (k, r)) = false := by
              simp only [singleCall, isCallOn, beq_eq_false_iff_ne, ne_eq]
              exact fun h => hik h.symm
            rw [hhead]
            simpa using hxf

theorem callbackArgs_cases (msg : Json) :
    (∃ e, getProp msg "error" = some e ∧ truthy e = true ∧
      callbackArgs msg = (some (.json e), none)) ∨
    (truthyOpt (getProp msg "error") = false ∧
      ((∃ v, getProp msg "result" = some v ∧ truthy v = true ∧
          callbackArgs msg = (none, some v)) ∨
       (truthyOpt (getProp msg "result") = false ∧
          callbackArgs msg = (none, some msg)))) := by
  unfold callbackArgs
  cases herr : getProp msg "error" with
  | some e =>
      cases hte : truthy e with
      | true =>
          left
          exact ⟨e, rfl, hte, by simp [truthyOpt, hte]⟩
      | false =>
          right
          refine ⟨by simp [truthyOpt, hte], ?_⟩
          cases hres : getProp msg "result" with
          | some v =>
              cases htv : truthy v with
              | true => left; exact ⟨v, rfl, htv, by simp [truthyOpt, hte, htv]⟩
              | false => right; exact ⟨by simp [truthyOpt, htv], by simp [truthyOpt, hte, htv]⟩
          | none => right; exact ⟨rfl, by simp [truthyOpt, hte]⟩
  | none =>
      right
      refine ⟨rfl, ?_⟩
      cases hres : getProp msg "result" with
      | some v =>
          cases htv : truthy v with
          | true => left; exact ⟨v, rfl, htv, by simp [truthyOpt, htv]⟩
          | false => right; exact ⟨by simp [truthyOpt, htv], by simp [truthyOpt, htv]⟩
      | none => right; exact ⟨rfl, by simp [truthyOpt]⟩

/-- C4: for N outstanding single requests with pairwise distinct ids
(`pending`) and their N non-array responses `rs` arriving in any order
(`ks`, a permutation of `pending`, lists the ids in arrival order), feeding
the responses to `response` in that order succeeds and appends exactly N
effects, among which each pending id has exactly one callback invocation,
carrying the outcome of the response with that id: a failure with
`msg.error` when that is truthy, otherwise a success with `msg.result` when
that is truthy and with the whole message when it is not.  Afterwards none
of the N ids is in the queue, and every other slot is as it was.  Applied to
a prefix of the responses this also says that a response never invokes or
removes an entry with another id. -/
theorem responses_resolve_in_any_order (c : Client) (pending ks : List Nat)
    (rs : List Json)
    (hnodup : pending.Nodup)
    (hsingle : ∀ i ∈ pending, objGet c.queue i = some .single)
    (hperm : ks.Perm pending)
    (hkeys : rs.map msgKey = ks.map some)
    (hshape : ∀ r ∈ rs, isBatchResponse r = false) :
    ∃ c1 new, feed c rs = .ok c1 ∧ c1.id = c.id ∧ c1.status = c.status ∧
      c1.effects = c.effects ++ new ∧ new.length = pending.length ∧
      (∀ i ∈ pending, ∃ r ∈ rs, msgKey r = some i ∧
        ((∃ e, getProp r "error" = some e ∧ truthy e = true ∧
            new.filter (isCallOn i) = [.call i .single (some (.json e)) none]) ∨
         (truthyOpt (getProp r "error") = false ∧
            ((∃ v, getProp r "result" = some v ∧ truthy v = true ∧
                new.filter (isCallOn i) = [.call i .single none (some v)]) ∨
             (truthyOpt (getProp r "result") = false ∧
                new.filter (isCallOn i) = [.call i .single none (some r)]))))) ∧
      (∀ i ∈ pending, objGet c1.queue i = none) ∧
      (∀ k, k ∉ pending → objGet c1.queue k = objGet c.queue k) := by
  have hnd : ks.Nodup := hperm.nodup_iff.mpr hnodup
  have hfeed := feed_ordered rs ks c hkeys hnd
    (fun i hi => hsingle i (hperm.mem_iff.mp hi)) hshape
  have hlen : rs.length = ks.length := by
    have := congrArg List.length hkeys
    simpa using this
  refine ⟨_, (ks.zip rs).map singleCall, hfeed, rfl, rfl, rfl, ?_, ?_, ?_, ?_⟩
  · simp [hlen, hperm.length_eq]
  · intro i hi
    obtain ⟨r, hr, hkey, hf⟩ := filter_calls_of_mem rs ks i hkeys hnd (hperm.mem_iff.mpr hi)
    refine ⟨r, hr, hkey, ?_⟩
    rw [hf]
    simp only [singleCall]
    rcases callbackArgs_cases r with ⟨e, he, hte, hargs⟩ | ⟨hne, hrest⟩
    · left
      exact ⟨e, he, hte, by rw [hargs]⟩
    · right
      refine ⟨hne, ?_⟩
      rcases hrest with ⟨v, hv, htv, hargs⟩ | ⟨hnr, hargs⟩
      · left
        exact ⟨v, hv, htv, by rw [hargs]⟩
      · right
        exact ⟨hnr, by rw [hargs]⟩
  · intro i hi
    exact objGet_foldl_delete_of_mem ks _ i (hperm.mem_iff.mpr hi)
  · intro k hk
    exact objGet_foldl_delete_of_not_mem ks _ k (fun h => hk (hperm.mem_iff.mp h))

/-- C4, on three pending requests answered in the order 3, 1, 2, the answer
to 1 being an error: the three callbacks are invoked in arrival order, 3 and
2 as successes with their results and 1 as a failure with its error. -/
theorem responses_resolve_in_any_order_witness :
    feed sampleThreePending sampleReplies =
      .ok { id := 3, status := 1, queue := [], listeners := [],
            effects := [.call 3 .single none (some (.str "c")),
                        .call 1 .single (some (.json (.str "bad"))) none,
                        .call 2 .single none (some (.str "b"))] } ∧
    ∃ c1 new, feed sampleThreePending sampleReplies = .ok c1 ∧
      c1.id = sampleThreePending.id ∧ c1.status = sampleThreePending.status ∧
      c1.effects = sampleThreePending.effects ++ new ∧ new.length = [1, 2, 3].length ∧
      (∀ i ∈ [1, 2, 3], ∃ r ∈ sampleReplies, msgKey r = some i ∧
        ((∃ e, getProp r "error" = some e ∧ truthy e = true ∧
            new.filter (isCallOn i) = [.call i .single (some (.json e)) none]) ∨
         (truthyOpt (getProp r "error") = false ∧
            ((∃ v, getProp r "result" = some v ∧ truthy v = true ∧
                new.filter (isCallOn i) = [.call i .single none (some v)]) ∨
             (truthyOpt (getProp r "result") = false ∧
                new.filter (isCallOn i) = [.call i .single none (some r)]))))) ∧
      (∀ i ∈ [1, 2, 3], objGet c1.queue i = none) ∧
      (∀ k, k ∉ [1, 2, 3] → objGet c1.queue k = objGet sampleThreePending.queue k) :=
  ⟨by rfl,
   responses_resolve_in_any_order sampleThreePending [1, 2, 3] [3, 1, 2] sampleReplies
    (by decide)
    (by
      intro i hi
      simp at hi
      rcases hi with h | h | h <;> subst h <;> rfl)
    (by decide)
    (by rfl)
    (by
      intro r hr
      simp [sampleReplies] at hr
      rcases hr with h | h | h <;> subst h <;> rfl)⟩

/-! ## `onClose` -/

theorem closeStep_fold (q : List (Nat × Entry)) :
    ∀ c : Client, c.queue = q → (objKeys q).Nodup →
      (objKeys q).foldl closeStep c =
        { c with queue := [],
                 effects := c.effects ++
                   q.map (fun e => .call e.1 e.2 (some (.error "close connect")) none) } := by
  induction q with
  | nil =>
      intro c hq _
      cases c
      simp at hq
      simp [objKeys, hq]
  | cons e rest ih =>
      intro c hq hnd
      obtain ⟨k, cb⟩ := e
      simp only [objKeys, List.map_cons, List.nodup_cons] at hnd
      have hget : objGet c.queue k = some cb := by simp [hq, objGet]
      have hdel : objDelete c.queue k = rest := by
        rw [hq]
        have h1 : objDelete ((k, cb) :: rest) k = objDelete rest k := by
          simp [objDelete, List.filter_cons]
        rw [h1]
        exact objDelete_of_not_mem rest k (by simpa [objKeys] using hnd.1)
      simp only [objKeys, List.map_cons, List.foldl_cons]
      have hstep : closeStep c k =
          { (c.emit (.call k cb (some (.error "close connect")) none)) with queue := rest } := by
        simp [closeStep, hget, hdel]
      rw [hstep]
      have := ih { (c.emit (.call k cb (some (.error "close connect")) none)) with queue := rest }
        rfl (by simpa [objKeys] using hnd.2)
      simp only [objKeys] at this
      rw [this]
      simp [Client.emit]

theorem nodup_of_objWF {β : Type} (o : List (Nat × β)) (h : ObjWF o) : (objKeys o).Nodup := by
  unfold ObjWF at h
  exact h.imp (fun hab => Nat.ne_of_lt hab)

/-- C5: for a client with M pending entries (single requests and batches),
`onClose` invokes each of the M callbacks exactly once, in key order, with
the error `close connect`, leaves the queue empty and sets the status to
0 (Disconnected). -/
theorem onClose_rejects_every_pending (c : Client) (hwf : ObjWF c.queue) :
    c.onClose =
      { c with status := 0, queue := [],
               effects := c.effects ++
                 c.queue.map (fun e => .call e.1 e.2 (some (.error "close connect")) none) } := by
  unfold Client.onClose
  rw [closeStep_fold c.queue { c with status := 0 } rfl (nodup_of_objWF _ hwf)]

/-- C5, on a queue holding a batch and a single request. -/
theorem onClose_rejects_every_pending_witness :
    ObjWF sampleBatchPending.queue ∧
    sampleBatchPending.onClose =
      { id := 4, status := 0, queue := [], listeners := [],
        effects := [.call 3 (.batch [(2, .str "a"), (3, .str "b")])
                      (some (.error "close connect")) none,
                    .call 4 .single (some (.error "close connect")) none] } :=
  ⟨by decide, onClose_rejects_every_pending sampleBatchPending (by decide)⟩

/-! ## Falsy results, and refusal when disconnected -/

/-- C3 (evaluation): a response whose `result` is `null` (the reply to
`server.ping`) makes `response` pass the whole message to the callback, not
the result. -/
theorem response_null_result_passes_whole_message :
    samplePingPending.response (.obj [("id", .num 1), ("result", .null)]) =
      .ok { id := 1, status := 1, queue := [], listeners := [],
            effects := [.call 1 .single none
              (some (.obj [("id", .num 1), ("result", .null)]))] } := by
  rfl

/-- C8 (as stated, refuted): right after `connect()` on a fresh client, with
no transport event delivered yet, `request` is not refused: it allocates the
identifier 1, registers the callback and writes the line. -/
theorem request_accepted_before_connect_event :
    Client.new.connect.1.status = 1 ∧
    Client.new.connect.1.effects = [.socketConnect] ∧
    Client.new.connect.1.request sampleMakeRequest "server.version" [] =
      ({ id := 1, status := 1, queue := [(1, .single)], listeners := [],
         effects := [.socketConnect, .write "server.version:1\n"] }, .pending 1) := by
  refine ⟨by rfl, by rfl, by rfl⟩

/-- C8 (amended): when the status is 0 (Disconnected), `request` and
`requestBatch` return a promise already rejected and leave the state as it
was: nothing is written, and the counter and the queue are unchanged. -/
theorem request_refused_when_disconnected (mk : String → List Json → Nat → String)
    (c : Client) (method : String) (params : List Json) (secondParam : Option Json)
    (hstatus : c.status = 0) :
    c.request mk method params =
      (c, .rejected "Connection to server lost, please retry") ∧
    c.requestBatch mk method params secondParam =
      (c, .rejected "Connection to server lost, please retry") := by
  simp [Client.request, Client.requestBatch, hstatus]

/-- C8 (amended), on a client that was never connected. -/
theorem request_refused_when_disconnected_witness :
    Client.new.status = 0 ∧
    Client.new.request sampleMakeRequest "blockchain.scripthash.get_balance" [.str "aa"] =
      (Client.new, .rejected "Connection to server lost, please retry") ∧
    Client.new.requestBatch sampleMakeRequest "blockchain.scripthash.get_balance"
        [.str "aa"] none =
      (Client.new, .rejected "Connection to server lost, please retry") :=
  ⟨by rfl, request_refused_when_disconnected sampleMakeRequest Client.new
      "blockchain.scripthash.get_balance" [.str "aa"] none (by rfl)⟩

/-! ## After `close()` -/

theorem Quiet.same (l : List Effect) : Quiet l l :=
  ⟨[], by simp, by simp⟩

theorem Quiet.extend {a b c : List Effect} (h1 : Quiet a b) (h2 : Quiet b c) : Quiet a c := by
  obtain ⟨x1, hx1, hq1⟩ := h1
  obtain ⟨x2, hx2, hq2⟩ := h2
  refine ⟨x1 ++ x2, by rw [hx2, hx1, List.append_assoc], ?_⟩
  intro x hx
  rcases List.mem_append.mp hx with h | h
  · exact hq1 x h
  · exact hq2 x h

theorem Quiet.snoc (l : List Effect) (x : Effect) (hx : restarts x = false) :
    Quiet l (l ++ [x]) :=
  ⟨[x], rfl, by simpa using hx⟩

theorem Calm.chain {a b c : ElectrumClient} (h1 : Calm a b) (h2 : Calm b c) : Calm a c :=
  ⟨h2.1, h2.2.1, h1.2.2.extend h2.2.2⟩

theorem Calm.of_same (e e1 : ElectrumClient) (hp : e1.patched = true)
    (hs : e1.base.status = 0) (heff : e1.base.effects = e.base.effects) : Calm e e1 :=
  ⟨hp, hs, heff ▸ Quiet.same _⟩

theorem calm_emit (e : ElectrumClient) (x : Effect) (hp : e.patched = true)
    (hs : e.base.status = 0) (hx : restarts x = false) : Calm e (e.emit x) :=
  ⟨hp, hs, Quiet.snoc _ x hx⟩

theorem calm_clearTimeout (e : ElectrumClient) (h : Nat) (hp : e.patched = true)
    (hs : e.base.status = 0) : Calm e (e.clearTimeout h) :=
  ⟨hp, hs, Quiet.snoc _ _ rfl⟩

theorem log_onError_quiet (message : String) :
    restarts (.log ("OnError:Error: " ++ message)) = false := by
  simp only [restarts, beq_eq_false_iff_ne, ne_eq]
  intro h
  have hd := congrArg String.data h
  rw [String.data_append] at hd
  have hh := congrArg List.head? hd
  simp at hh

theorem calm_onError (e : ElectrumClient) (message : String) (hp : e.patched = true)
    (hs : e.base.status = 0) :
    Calm e { e with base := e.base.onError message } :=
  ⟨hp, hs, Quiet.snoc _ _ (log_onError_quiet message)⟩

theorem calm_request (mk : String → List Json → Nat → String) (e : ElectrumClient)
    (now : Nat) (method : String) (params : List Json) (hp : e.patched = true)
    (hs : e.base.status = 0) :
    Calm e (e.request mk now method params).1 ∧
      ∃ m, (e.request mk now method params).2 = .rejected m := by
  simp only [ElectrumClient.request, Client.request, hs, if_true]
  exact ⟨Calm.of_same _ _ hp hs rfl, _, rfl⟩

theorem calm_runHandshake (mk : String → List Json → Nat → String) (e : ElectrumClient)
    (now : Nat) (hp : e.patched = true) (hs : e.base.status = 0) :
    Calm e (e.runHandshake mk now) := by
  unfold ElectrumClient.runHandshake
  cases e.electrumConfig with
  | none => exact Calm.of_same _ _ hp hs rfl
  | some cfg => exact (calm_request mk e now _ _ hp hs).1

theorem calm_settled (e : ElectrumClient) (slot : Nat) (failed : Bool)
    (hp : e.patched = true) (hs : e.base.status = 0) : Calm e (e.settled slot failed) := by
  have hk : e.keepAlive = e := by simp [ElectrumClient.keepAlive, hp]
  unfold ElectrumClient.settled
  rw [hk]
  simp only [ite_self]
  cases objGet e.probes slot with
  | none => exact Calm.of_same _ _ hp hs rfl
  | some t =>
      cases failed with
      | false =>
          have h1 := calm_clearTimeout e t hp hs
          exact ⟨h1.1, h1.2.1, h1.2.2⟩
      | true =>
          have h1 := calm_emit e (.log "keepalive ping failed because of") hp hs (by rfl)
          have h2 := calm_clearTimeout _ t h1.1 h1.2.1
          have h3 := calm_clearTimeout _ t h2.1 h2.2.1
          have h4 := h1.chain (h2.chain h3)
          exact ⟨h4.1, h4.2.1, h4.2.2⟩

theorem calm_foldl_settled (calls : List (Nat × Bool)) :
    ∀ e : ElectrumClient, e.patched = true → e.base.status = 0 →
      Calm e (calls.foldl (fun s c => s.settled c.1 c.2) e) := by
  induction calls with
  | nil => intro e hp hs; exact Calm.of_same _ _ hp hs rfl
  | cons c rest ih =>
      intro e hp hs
      have h1 := calm_settled e c.1 c.2 hp hs
      exact h1.chain (ih _ h1.1 h1.2.1)

theorem calm_runSettled (e : ElectrumClient) (before : Nat) (hp : e.patched = true)
    (hs : e.base.status = 0) : Calm e (e.runSettled before) :=
  calm_foldl_settled _ e hp hs

theorem deliver_quiet (c : Client) (msg : Json) (cb : Option Callback) :
    onEither (ClientQuiet c) (deliver c msg cb) := by
  cases cb with
  | none => exact ⟨rfl, Quiet.snoc _ _ (by rfl)⟩
  | some p =>
      cases p with
      | entry slot e => exact ⟨rfl, Quiet.snoc _ _ (by rfl)⟩
      | inherited name =>
          unfold deliver
          simp only []
          split
          · exact ⟨rfl, Quiet.same _⟩
          · exact ⟨rfl, Quiet.same _⟩

theorem response_quiet (c : Client) (msg : Json) :
    onEither (ClientQuiet c) (c.response msg) := by
  unfold Client.response
  by_cases hb : isBatchResponse msg = true
  · rw [if_pos hb]
    cases msg with
    | arr ms =>
        simp only []
        cases scan ms { queue := c.queue, callback := none } with
        | ok acc => exact deliver_quiet _ _ _
        | error acc => exact ⟨rfl, Quiet.same _⟩
    | null => exact ⟨rfl, Quiet.same _⟩
    | bool b => exact ⟨rfl, Quiet.same _⟩
    | num n => exact ⟨rfl, Quiet.same _⟩
    | str s => exact ⟨rfl, Quiet.same _⟩
    | obj kvs => exact ⟨rfl, Quiet.same _⟩
  · rw [if_neg hb]
    cases keyOfOpt (getProp msg "id") with
    | none => exact deliver_quiet _ _ _
    | some k => exact deliver_quiet _ _ _

theorem publish_quiet (c : Client) (msg : Json) :
    onEither (ClientQuiet c) (publish c msg) := by
  unfold publish
  split
  · exact ⟨rfl, Quiet.same _⟩
  · exact ⟨rfl, Quiet.snoc _ _ (by rfl)⟩

theorem tryMessage_quiet (c : Client) (parsed : Option Json) :
    onEither (ClientQuiet c) (tryMessage c parsed) := by
  cases parsed with
  | none => exact ⟨rfl, Quiet.same _⟩
  | some msg =>
      cases msg with
      | null => exact ⟨rfl, Quiet.same _⟩
      | arr ms => exact response_quiet c _
      | bool b => exact publish_quiet c _
      | num n => exact publish_quiet c _
      | str s => exact publish_quiet c _
      | obj kvs =>
          unfold tryMessage
          simp only []
          cases getProp (.obj kvs) "id" with
          | none => exact publish_quiet c _
          | some v => exact response_quiet c _

theorem calm_onClose (e : ElectrumClient) (hp : e.patched = true) (hs : e.base.status = 0) :
    Calm e e.onClose := by
  simp only [ElectrumClient.onClose, hp, if_true]
  exact Calm.of_same _ _ hp hs rfl

theorem calm_onMessage (e : ElectrumClient) (parsed : Option Json) (hp : e.patched = true)
    (hs : e.base.status = 0) : Calm e (e.onMessage parsed) := by
  have hq := tryMessage_quiet e.base parsed
  unfold ElectrumClient.onMessage
  cases hres : tryMessage e.base parsed with
  | ok c1 =>
      rw [hres] at hq
      have h1 : Calm e { e with base := c1 } := ⟨hp, by rw [hq.1]; exact hs, hq.2⟩
      exact h1.chain (calm_runSettled _ _ h1.1 h1.2.1)
  | error c1 =>
      rw [hres] at hq
      have h1 : Calm e { e with base := c1 } := ⟨hp, by rw [hq.1]; exact hs, hq.2⟩
      have h2 := calm_emit { e with base := c1 } .socketEnd h1.1 h1.2.1 (by rfl)
      have h3 := calm_emit _ .socketDestroy h2.1 h2.2.1 (by rfl)
      have h4 := calm_onClose _ h3.1 h3.2.1
      have h5 := calm_runSettled _ e.base.effects.length h4.1 h4.2.1
      exact h1.chain (h2.chain (h3.chain (h4.chain h5)))

theorem calm_reconnectTimer (mk : String → List Json → Nat → String) (e : ElectrumClient)
    (now : Nat) (hp : e.patched = true) (hs : e.base.status = 0) :
    Calm e (e.reconnectTimer mk now) := by
  have hr : e.reconnect mk now = e := by simp [ElectrumClient.reconnect, hp]
  unfold ElectrumClient.reconnectTimer
  rw [hr]
  cases e.persistencePolicy with
  | none => exact Calm.of_same _ _ hp hs rfl
  | some p =>
      simp only
      split
      · exact Calm.of_same _ _ hp hs rfl
      · cases p.callback with
        | none => exact Calm.of_same _ _ hp hs rfl
        | some f => exact calm_emit e _ hp hs (by rfl)

theorem calm_idleTimer (mk : String → List Json → Nat → String) (e : ElectrumClient)
    (now : Nat) (hp : e.patched = true) (hs : e.base.status = 0) :
    Calm e (e.idleTimer mk now) := by
  unfold ElectrumClient.idleTimer
  split
  · have h1 : Calm e (e.setTimeout .probe).1 := ⟨hp, hs, Quiet.snoc _ _ (by rfl)⟩
    obtain ⟨h2, m, hm⟩ := calm_request mk (e.setTimeout .probe).1 now "server.ping" []
      h1.1 h1.2.1
    simp only [hm]
    have h3 := calm_emit _ (.log "keepalive ping failed because of") h2.1 h2.2.1 (by rfl)
    have h4 := calm_clearTimeout _ (e.setTimeout .probe).2 h3.1 h3.2.1
    have h5 := calm_clearTimeout _ (e.setTimeout .probe).2 h4.1 h4.2.1
    exact h1.chain (h2.chain (h3.chain (h4.chain h5)))
  · exact Calm.of_same _ _ hp hs rfl

theorem calm_fire (mk : String → List Json → Nat → String) (e : ElectrumClient)
    (h now : Nat) (hp : e.patched = true) (hs : e.base.status = 0) :
    Calm e (e.fire mk h now) := by
  unfold ElectrumClient.fire
  cases objGet e.timers h with
  | none => exact Calm.of_same _ _ hp hs rfl
  | some kind =>
      have h0 : Calm e { e with timers := objDelete e.timers h } :=
        Calm.of_same _ _ hp hs rfl
      cases kind with
      | reconnectDelay => exact h0.chain (calm_reconnectTimer mk _ now h0.1 h0.2.1)
      | idle => exact h0.chain (calm_idleTimer mk _ now h0.1 h0.2.1)
      | probe => exact h0.chain (calm_onError _ _ h0.1 h0.2.1)

theorem calm_step (mk : String → List Json → Nat → String) (e : ElectrumClient)
    (ev : Event) (hp : e.patched = true) (hs : e.base.status = 0) :
    Calm e (e.step mk ev) := by
  cases ev with
  | connected now =>
      simp only [ElectrumClient.step, ElectrumClient.onSocketConnect]
      split
      · have h0 : Calm e { e with handshake := false } := Calm.of_same _ _ hp hs rfl
        exact h0.chain (calm_runHandshake mk _ now h0.1 h0.2.1)
      · exact Calm.of_same _ _ hp hs rfl
  | error message =>
      have h1 := calm_onError e message hp hs
      exact ⟨h1.1, h1.2.1, h1.2.2⟩
  | closed =>
      simp only [ElectrumClient.step, ElectrumClient.onSocketClose]
      have h1 := calm_onClose e hp hs
      exact h1.chain (calm_runSettled _ _ h1.1 h1.2.1)
  | data parsed => exact calm_onMessage e parsed hp hs
  | timer h now => exact calm_fire mk e h now hp hs

theorem calm_run (mk : String → List Json → Nat → String) (evs : List Event) :
    ∀ e : ElectrumClient, e.patched = true → e.base.status = 0 →
      Calm e (e.run mk evs) := by
  induction evs with
  | nil => intro e hp hs; exact Calm.of_same _ _ hp hs rfl
  | cons ev rest ih =>
      intro e hp hs
      have h1 := calm_step mk e ev hp hs
      exact h1.chain (ih _ h1.1 h1.2.1)

theorem close_patched (e : ElectrumClient) :
    e.close.patched = true ∧ e.close.base.status = 0 := by
  unfold ElectrumClient.close
  refine ⟨rfl, ?_⟩
  have hb : e.base.close.status = 0 := by
    unfold Client.close
    split
    · assumption
    · rfl
  cases ht : ({ e with base := e.base.close } : ElectrumClient).timeout with
  | none => simp only [ht]; exact hb
  | some h => simp only [ht]; exact hb

/-- C7: once `close()` has been called, whatever events follow (transport
connect, error and close events, received data, and expirations of any
timer, also of one armed before `close()`), every effect added to the
trace is quiet: no socket is opened, `reconnect` does not run, nothing is
written to the socket (no handshake) and no idle timer is armed. -/
theorem close_disables_reconnect_and_keepalive (mk : String → List Json → Nat → String)
    (e : ElectrumClient) (evs : List Event) :
    ∃ extra, (e.close.run mk evs).base.effects = e.close.base.effects ++ extra ∧
      ∀ x ∈ extra, restarts x = false :=
  (calm_run mk evs e.close (close_patched e).1 (close_patched e).2).2.2

/-! ## Evaluations of the lifecycle -/

/-- C6 (evaluation): with the policy `{ maxRetry: 2, callback: f }` and
three attempts failing at once, `reconnect` runs all three times, `f` is
never invoked, and the policy in force afterwards is the default one less
one retry, `{ maxRetry: 999, callback: null }`. -/
theorem reconnect_replaces_policy :
    sampleStarted.persistencePolicy = some { maxRetry := 2, callback := some 7 } ∧
    ((sampleStarted.run sampleMakeRequest sampleFailures).base.effects.filter
      isReconnectLog).length = 3 ∧
    (sampleStarted.run sampleMakeRequest sampleFailures).base.effects.filter
      isPolicyCallback = [] ∧
    (sampleStarted.run sampleMakeRequest sampleFailures).persistencePolicy =
      some { maxRetry := 999, callback := none } := by
  refine ⟨by rfl, by rfl, by rfl, by rfl⟩

/-- C9 (evaluation): when the probe timer expires before the probe is
answered, the only effect is the line logged by `onError`: the probe stays
pending, no callback is invoked, the status stays 1 and no timer is
armed. -/
theorem probe_timeout_only_logs :
    sampleProbing.timers = [(1, .probe)] ∧
    sampleProbing.base.queue = [(2, .single)] ∧
    (sampleProbing.fire sampleMakeRequest 1 15000).base.effects =
      sampleProbing.base.effects ++ [.log "OnError:Error: keepalive ping timeout"] ∧
    (sampleProbing.fire sampleMakeRequest 1 15000).base.queue = [(2, .single)] ∧
    (sampleProbing.fire sampleMakeRequest 1 15000).base.status = 1 ∧
    (sampleProbing.fire sampleMakeRequest 1 15000).timers = [] := by
  refine ⟨by rfl, by rfl, by rfl, by rfl, by rfl, by rfl⟩

/-- C10 (evaluation): with the request 1 pending, `close()` followed by the
close event of the transport invokes no callback and leaves the request in
the queue. -/
theorem close_leaves_requests_pending :
    sampleAwaiting.base.queue = [(1, .single)] ∧
    (sampleAwaiting.close.run sampleMakeRequest [.closed]).base.queue = [(1, .single)] ∧
    (sampleAwaiting.close.run sampleMakeRequest [.closed]).base.effects.filter isCall = [] ∧
    (sampleAwaiting.close.run sampleMakeRequest [.closed]).base.status = 0 := by
  refine ⟨by rfl, by rfl, by rfl, by rfl⟩

theorem reconnectTimer_resets_policy (mk : String → List Json → Nat → String)
    (e : ElectrumClient) (now : Nat) (p : Policy) (hp : e.patched = false)
    (hpol : e.persistencePolicy = some p) (hpos : p.maxRetry > 0) :
    (e.reconnectTimer mk now).persistencePolicy =
      some { maxRetry := 999, callback := none } := by
  simp [ElectrumClient.reconnectTimer, hpol, hpos, ElectrumClient.reconnect, hp,
    ElectrumClient.reconnectProto, ElectrumClient.initElectrum, Client.connect,
    Client.initSocket, ElectrumClient.emit, Client.emit]

theorem isBatchResponse_of_truthy_id (msg : Json) (h : truthyOpt (getProp msg "id") = true) :
    isBatchResponse msg = false := by
  simp [isBatchResponse, h]

theorem close_keeps_queue (e : ElectrumClient) : e.close.base.queue = e.base.queue := by
  have hb : e.base.close.queue = e.base.queue := by
    unfold Client.close
    split <;> rfl
  unfold ElectrumClient.close
  cases ht : ({ e with base := e.base.close } : ElectrumClient).timeout with
  | none => simp only [ht]; exact hb
  | some h => simp only [ht]; exact hb

theorem closed_event_after_close (mk : String → List Json → Nat → String)
    (e : ElectrumClient) : e.close.step mk .closed = e.close := by
  have hp := (close_patched e).1
  simp [ElectrumClient.step, ElectrumClient.onSocketClose, ElectrumClient.onClose, hp,
    ElectrumClient.runSettled, callsOf]

theorem probeTimer_only_logs (e : ElectrumClient) :
    e.probeTimer.base.queue = e.base.queue ∧ e.probeTimer.base.status = e.base.status ∧
    e.probeTimer.timers = e.timers ∧
    e.probeTimer.base.effects =
      e.base.effects ++ [.log "OnError:Error: keepalive ping timeout"] :=
  ⟨rfl, rfl, rfl, rfl⟩

end Electrum
